import Mathlib

/-!
Verification of the BranchGuard rule-evaluation engine.

This file shallowly embeds the core of the BranchGuard GitHub App
(`src/services/evaluate.ts`, `src/services/retry.ts`, the check-type
implementations `external-status`, `approval-gate`, `file-presence`,
`file-pair`, `branch-age`, the allowlist parser scoping, and the
PR-comment notification manager) as executable Lean definitions, and
proves the spec's testable properties about them.

Conventions of the embedding:
- JavaScript `Map` objects are modelled as association lists with
  JavaScript's insertion-order semantics (`jsMapSet` replaces in place).
- Promises/`async` disappear: remote responses (check-run listings,
  review listings, tree listings, team membership, the merge-base
  timestamp, `Date.now()`) become explicit function arguments, and
  outbound mutations become explicit action lists returned by the
  functions that would perform them.
- HTTP header values that the code reads numerically are modelled by
  their numeric content (`Option Nat`); header values compared as
  strings stay `Option String`.
-/

namespace BranchGuard

set_option maxHeartbeats 1000000

set_option autoImplicit false

set_option maxRecDepth 100000

/-- Conclusion of a check, `"success" | "failure"` in `types.ts`. -/
inductive Conclusion where
| success
| failure
deriving DecidableEq, Repr

/-- CheckResult from `types.ts`: conclusion, title, summary, optional details. -/
structure CheckResult where
conclusion : Conclusion
title : String
summary : String
details : Option String := none
deriving DecidableEq, Repr

/-- Status of one remote check run as returned by the GitHub API. -/
structure RemoteRun where
name : String
status : String
conclusion : Option String
deriving DecidableEq, Repr

/-- Classification of a required check in `external-status.ts`
(`ExternalCheckStatus.status`). -/
inductive ExtStatus where
| completed
| pending
| missing
deriving DecidableEq, Repr

/-- ExternalCheckStatus from `external-status.ts`. -/
structure ExternalCheckStatus where
name : String
status : ExtStatus
conclusion : Option String
deriving DecidableEq, Repr

/-- PendingEvaluation record from `external-status.ts`. -/
structure PendingEvaluation where
owner : String
repo : String
headSha : String
ruleName : String
requiredChecks : List String
checkRunId : Nat
createdAt : Nat
timeoutMinutes : Nat
deriving DecidableEq, Repr

/-- The in-memory `pendingEvaluations` map, modelled as an association
list from key strings to records, in JavaScript `Map` insertion order. -/
abbrev PendingStore := List (String × PendingEvaluation)

/-- JavaScript `Map.prototype.set`: replace the value in place when the
key is already present, otherwise append at the end. -/
def jsMapSet {β : Type} : List (String × β) → String → β → List (String × β)
| [], k, v => [(k, v)]
| p :: rest, k, v => if p.1 = k then (k, v) :: rest else p :: jsMapSet rest k v

/-- JavaScript `Map.prototype.get`, as an association-list lookup. -/
def jsMapGet {β : Type} (m : List (String × β)) (k : String) : Option β :=
(m.find? (fun p => p.1 = k)).map (fun p => p.2)

/-- getPendingKey from `external-status.ts`. -/
def getPendingKey (owner repo headSha ruleName : String) : String :=
owner ++ "/" ++ repo ++ ":" ++ headSha ++ ":" ++ ruleName

/-- setPendingEvaluation from `external-status.ts` (a `Map.set`). -/
def setPendingEvaluation (store : PendingStore) (key : String)
(ev : PendingEvaluation) : PendingStore :=
jsMapSet store key ev

/-- deletePendingEvaluation from `external-status.ts` (a `Map.delete`). -/
def deletePendingEvaluation (store : PendingStore) (key : String) : PendingStore :=
store.filter (fun p => p.1 ≠ key)

/-- getPendingEvaluation from `external-status.ts` (a `Map.get`). -/
def getPendingEvaluation (store : PendingStore) (key : String) :
Option PendingEvaluation :=
jsMapGet store key

/-- Classification of one required check name against the remote
check-run listing (`getRequiredCheckStatuses`, the mapped body). -/
def classifyRequired (allRuns : List RemoteRun) (checkName : String) :
ExternalCheckStatus :=
match allRuns.find? (fun r => r.name = checkName) with
| none => ⟨checkName, ExtStatus.missing, none⟩
| some run =>
  if run.status = "completed" then ⟨checkName, ExtStatus.completed, run.conclusion⟩
  else ⟨checkName, ExtStatus.pending, none⟩

/-- getRequiredCheckStatuses from `external-status.ts`: one
classification per required check name, with the remote listing given
as an argument. -/
def getRequiredCheckStatuses (allRuns : List RemoteRun)
(requiredChecks : List String) : List ExternalCheckStatus :=
requiredChecks.map (classifyRequired allRuns)

/-- A completed required check with a non-success conclusion
(the predicate inside `anyFailed` and `failedChecks`). -/
def isFailedStatus (s : ExternalCheckStatus) : Bool :=
s.status = ExtStatus.completed && s.conclusion ≠ some "success"

/-- Result built in the all-passed branch of
`ExternalStatusCheck.execute`. -/
def externalSuccessResult (requiredChecks : List String) : CheckResult :=
{ conclusion := Conclusion.success,
  title := "All required checks passed",
  summary := "Required checks: " ++ String.intercalate ", " requiredChecks }

/-- Result built in the any-failed branch of
`ExternalStatusCheck.execute` (`failedChecks[0]` is the head of the
non-empty failed list). -/
def externalFailureResult (failedChecks : List String) : CheckResult :=
{ conclusion := Conclusion.failure,
  title := "Required check \"" ++ failedChecks.headD "" ++ "\" failed",
  summary := "The following required checks did not pass: "
    ++ String.intercalate ", " failedChecks }

/-- Result built in the still-pending branch of
`ExternalStatusCheck.execute`. -/
def externalWaitingResult (pendingNames : List String)
(timeoutMinutes : Nat) : CheckResult :=
{ conclusion := Conclusion.failure,
  title := "Waiting for: " ++ String.intercalate ", " pendingNames,
  summary := "Required checks are still pending: "
    ++ String.intercalate ", " pendingNames
    ++ ".\n\nThis check will be updated automatically when the required checks complete (timeout: "
    ++ toString timeoutMinutes ++ " minutes)." }

/-- ExternalStatusCheck.execute from `external-status.ts`, with the
remote check-run listing passed in and the pending store threaded
explicitly. Returns the CheckResult together with the updated store. -/
def externalStatusExecute (owner repo headSha ruleName : String)
(requiredChecks : List String) (timeoutMinutes : Nat)
(allRuns : List RemoteRun) (store : PendingStore) :
CheckResult × PendingStore :=
let sts := getRequiredCheckStatuses allRuns requiredChecks
let allCompleted := sts.all (fun s => s.status = ExtStatus.completed)
let anyFailed := sts.any isFailedStatus
if allCompleted && !anyFailed then
  (externalSuccessResult requiredChecks,
   deletePendingEvaluation store (getPendingKey owner repo headSha ruleName))
else if anyFailed then
  (externalFailureResult ((sts.filter isFailedStatus).map (fun s => s.name)),
   deletePendingEvaluation store (getPendingKey owner repo headSha ruleName))
else
  (externalWaitingResult
    ((sts.filter (fun s => s.status = ExtStatus.pending || s.status = ExtStatus.missing)).map
      (fun s => s.name)) timeoutMinutes,
   store)

/-- Result built in the timeout branch of
`ExternalStatusCheck.resolveIfReady`. -/
def externalTimeoutResult (ev : PendingEvaluation) : CheckResult :=
{ conclusion := Conclusion.failure,
  title := "Timed out waiting for required checks",
  summary := "Required checks did not complete within "
    ++ toString ev.timeoutMinutes ++ " minutes: "
    ++ String.intercalate ", " ev.requiredChecks }

/-- ExternalStatusCheck.resolveIfReady from `external-status.ts`:
the reactive resolution path invoked by the `check_run.completed`
handler. `now` is `Date.now()`; `headSha` is `ctx.pr.headSha` as passed
by the handler. Returns `none` while still pending. -/
def resolveIfReady (owner repo headSha : String) (ev : PendingEvaluation)
(now : Nat) (allRuns : List RemoteRun) (store : PendingStore) :
Option CheckResult × PendingStore :=
let elapsedMs := now - ev.createdAt
let timeoutMs := ev.timeoutMinutes * 60 * 1000
if elapsedMs > timeoutMs then
  (some (externalTimeoutResult ev),
   deletePendingEvaluation store (getPendingKey owner repo headSha ev.ruleName))
else
  let sts := getRequiredCheckStatuses allRuns ev.requiredChecks
  let allCompleted := sts.all (fun s => s.status = ExtStatus.completed)
  let anyFailed := sts.any isFailedStatus
  if allCompleted && !anyFailed then
    (some (externalSuccessResult ev.requiredChecks),
     deletePendingEvaluation store (getPendingKey owner repo headSha ev.ruleName))
  else if anyFailed then
    (some (externalFailureResult ((sts.filter isFailedStatus).map (fun s => s.name))),
     deletePendingEvaluation store (getPendingKey owner repo headSha ev.ruleName))
  else
    (none, store)

/-- Error shape consumed by `retry.ts`: the HTTP status
(`error.status ?? error.response?.status`), the numeric content of the
`retry-after` response header (`none` when the header is absent), and
the raw `x-ratelimit-remaining` header string. -/
structure HttpError where
status : Option Nat
retryAfterSeconds : Option Nat
rateLimitRemaining : Option String
deriving DecidableEq, Repr

/-- RETRYABLE_STATUSES from `retry.ts`. -/
def retryableStatuses : List Nat := [429, 500, 502, 503]

/-- isRateLimited403 from `retry.ts`: a present `retry-after` header or
an exact `x-ratelimit-remaining: "0"` header marks a rate-limited 403. -/
def isRateLimited403 (e : HttpError) : Bool :=
e.retryAfterSeconds.isSome || e.rateLimitRemaining = some "0"

/-- isRetryable from `retry.ts` (a missing or zero status is falsy and
never retried). -/
def isRetryable (e : HttpError) : Bool :=
match e.status with
| none => false
| some s =>
  if s = 0 then false
  else if retryableStatuses.contains s then true
  else if s = 403 then isRateLimited403 e
  else false

/-- getRetryAfterMs from `retry.ts`: the header value in milliseconds
when it parses to a finite positive number, otherwise `none`. -/
def getRetryAfterMs (e : HttpError) : Option Nat :=
match e.retryAfterSeconds with
| none => none
| some n => if 0 < n then some (n * 1000) else none

/-- withRetry's loop from attempt `attempt` with `k` retries still
allowed (`k = maxRetries - attempt`); `calls i` is the outcome of the
`i`-th invocation of `fn`. Returns the final outcome together with the
list of delays slept before each retry. When `k = 0` the loop is at
`attempt === maxRetries`, so a failure is re-thrown unretried. -/
def withRetryFrom {α : Type} (calls : Nat → Except HttpError α)
(baseDelayMs attempt : Nat) : Nat → Except HttpError α × List Nat
| 0 => (calls attempt, [])
| k + 1 =>
  match calls attempt with
  | Except.ok v => (Except.ok v, [])
  | Except.error e =>
    if isRetryable e then
      let rest := withRetryFrom calls baseDelayMs (attempt + 1) k
      (rest.1, ((getRetryAfterMs e).getD (baseDelayMs * 2 ^ attempt)) :: rest.2)
    else (Except.error e, [])

/-- withRetry from `retry.ts`: run `fn` with up to `maxRetries` retries. -/
def withRetry {α : Type} (calls : Nat → Except HttpError α)
(maxRetries baseDelayMs : Nat) : Except HttpError α × List Nat :=
withRetryFrom calls baseDelayMs 0 maxRetries

/-- Sample error: a 429 carrying `retry-after: 5`. -/
def err429 : HttpError := ⟨some 429, some 5, none⟩

/-- Sample call sequence that always fails with `err429`. -/
def calls429 : Nat → Except HttpError Nat := fun _ => Except.error err429

/-- Sample error: a plain 403 with no rate-limit headers. -/
def err403 : HttpError := ⟨some 403, none, none⟩

/-- Sample call sequence that always fails with `err403`. -/
def calls403 : Nat → Except HttpError Nat := fun _ => Except.error err403

/-- Mode of a `file_pair` rule (`"any" | "all"`, default `"any"`). -/
inductive PairMode where
| any
| all
deriving DecidableEq, Repr

/-- The `companion` config field of a `file_pair` rule: a single path
or an array of paths (`z.union([z.string(), z.array(z.string())])`). -/
inductive CompanionSpec where
| one (path : String)
| many (paths : List String)
deriving DecidableEq, Repr

/-- Normalization at the top of `FilePairCheck.execute`
(`Array.isArray(companion) ? companion : [companion]`). -/
def companionList : CompanionSpec → List String
| CompanionSpec.one p => [p]
| CompanionSpec.many ps => ps

/-- FilePairCheck.execute from `file-pair.ts`, with the PR's
changed-file list and the rule's include patterns passed in. -/
def filePairExecute (companion : CompanionSpec) (mode : PairMode)
(includePatterns : List String) (changedFiles : List String) : CheckResult :=
let companions := companionList companion
let companionResults := companions.map (fun c => (c, changedFiles.contains c))
let changedCompanions := companionResults.filter (fun c => c.2)
let missingCompanions := companionResults.filter (fun c => !c.2)
let passed : Bool :=
  if mode = PairMode.all then missingCompanions.length == 0
  else decide (changedCompanions.length > 0)
if passed then
  { conclusion := Conclusion.success,
    title := "Companion file(s) updated",
    summary := "Required companion file(s) were updated: "
      ++ String.intercalate ", " (changedCompanions.map (fun c => c.1)) }
else
  { conclusion := Conclusion.failure,
    title := "Missing companion file update",
    summary := "Changes matching `" ++ String.intercalate ", " includePatterns
      ++ "` require the following companion file(s) to also be updated:\n\n"
      ++ String.intercalate "\n" (missingCompanions.map (fun c => "- " ++ c.1)) }

/-- BranchAgeCheck.execute from `branch-age.ts`:
`mergeBaseTimeMs` is the epoch-millisecond value of
`merge_base_commit.commit.committer?.date` (`none` when unavailable)
and `nowMs` is `Date.now()`. `Int.fdiv` is JavaScript's
`Math.floor` applied to the quotient. -/
def branchAgeExecute (maxAgeDays : Nat) (baseBranch : String)
(mergeBaseTimeMs : Option Int) (nowMs : Int) : CheckResult :=
match mergeBaseTimeMs with
| none =>
  { conclusion := Conclusion.failure,
    title := "Unable to determine branch age",
    summary := "Could not read the merge base commit date from the GitHub Compare API." }
| some t =>
  let ageDays := Int.fdiv (nowMs - t) (1000 * 60 * 60 * 24)
  if ageDays ≤ (maxAgeDays : Int) then
    { conclusion := Conclusion.success,
      title := "Branch is " ++ toString ageDays ++ " day(s) old",
      summary := "The branch diverged " ++ toString ageDays
        ++ " day(s) ago, within the " ++ toString maxAgeDays ++ "-day limit." }
  else
    { conclusion := Conclusion.failure,
      title := "Branch is " ++ toString ageDays ++ " day(s) old (max: "
        ++ toString maxAgeDays ++ ")",
      summary := "The branch diverged " ++ toString ageDays
        ++ " day(s) ago, exceeding the " ++ toString maxAgeDays
        ++ "-day limit. Consider rebasing onto the latest `" ++ baseBranch ++ "`." }

/-- AllowlistEntry from `allowlist-parser.ts`: one parsed
`rule-name: path (reason)` line; `reason` is `""` when absent. -/
structure AllowlistEntry where
ruleName : String
filePath : String
reason : String
deriving DecidableEq, Repr

/-- getAllowedFilesForRule from `allowlist-parser.ts`, applied to the
already-parsed entry list (`parseAllowlist(prBody)`): keep the entries
scoped to this rule's name. The regex block/line scan that produces the
entries is abstracted by quantifying over every possible entry list. -/
def getAllowedFilesForRule (entries : List AllowlistEntry) (ruleName : String) :
List AllowlistEntry :=
entries.filter (fun e => e.ruleName = ruleName)

/-- The set difference `allMissingFiles = baseFiles \ headFiles`
computed in `FilePresenceCheck.execute` (`!headSet.has(f)`). -/
def missingFrom (baseFiles headFiles : List String) : List String :=
baseFiles.filter (fun f => !(headFiles.contains f))

/-- The allowlisted path set of this rule
(`new Set(allowedEntries.map((e) => e.filePath))`). -/
def allowedPathsFor (entries : List AllowlistEntry) (ruleName : String) :
List String :=
(getAllowedFilesForRule entries ruleName).map (fun e => e.filePath)

/-- The rendered allowed-deletions block of `FilePresenceCheck.execute`
(`allowedEntries.filter(...includes...).map(...).join("\n")`). -/
def allowedDeletionLines (allowedEntries : List AllowlistEntry)
(allMissingFiles : List String) : String :=
String.intercalate "\n"
  ((allowedEntries.filter (fun e => allMissingFiles.contains e.filePath)).map
    (fun e => "- " ++ e.filePath
      ++ (if e.reason ≠ "" then " (" ++ e.reason ++ ")" else "")))

/-- FilePresenceCheck.execute from `file-presence.ts` (the allowlist
variant), with the two filtered tree listings and the parsed allowlist
passed in. -/
def filePresenceExecute (baseFiles headFiles : List String)
(entries : List AllowlistEntry) (ruleName baseBranch : String) : CheckResult :=
let allMissingFiles := missingFrom baseFiles headFiles
if allMissingFiles.length = 0 then
  { conclusion := Conclusion.success,
    title := "All files in sync",
    summary := "All " ++ toString baseFiles.length ++ " matching file(s) from "
      ++ baseBranch ++ " are present on this branch." }
else
  let allowedEntries := getAllowedFilesForRule entries ruleName
  let allowedPaths := allowedPathsFor entries ruleName
  let trulyMissing := allMissingFiles.filter (fun f => !(allowedPaths.contains f))
  let allowedMissing := allMissingFiles.filter (fun f => allowedPaths.contains f)
  let allowedList := allowedDeletionLines allowedEntries allMissingFiles
  if trulyMissing.length = 0 then
    { conclusion := Conclusion.success,
      title := "All files in sync (" ++ toString allowedMissing.length
        ++ " allowed deletion(s))",
      summary := "All matching files from " ++ baseBranch
        ++ " are present or explicitly allowed.",
      details := some ("**Allowed deletions (via PR description):**\n" ++ allowedList) }
  else
    let missingList := String.intercalate "\n" (trulyMissing.map (fun f => "- " ++ f))
    let baseDetails := "**Missing:**\n" ++ missingList ++ "\n\nRebase on "
      ++ baseBranch ++ " and resolve the missing files."
    { conclusion := Conclusion.failure,
      title := "Missing " ++ toString trulyMissing.length ++ " file(s) from "
        ++ baseBranch,
      summary := "This branch is missing files that exist on " ++ baseBranch ++ ".",
      details := some (if allowedMissing.length > 0
        then baseDetails ++ "\n\n**Allowed deletions (via PR description):**\n" ++ allowedList
        else baseDetails) }

/-- Lowercasing as in JS `toLowerCase` on the character list of the
string (structural, so concrete instances evaluate). -/
def strToLower (s : String) : String :=
String.mk (s.data.map Char.toLower)

/-- Left-biased choice on options (`a ?? b`). -/
def optOr {α : Type} (a b : Option α) : Option α :=
match a with
| some x => some x
| none => b

/-- Review states from the GitHub reviews API as read by
`approval-gate.ts`. -/
inductive ReviewState where
| approved
| changes_requested
| commented
| dismissed
deriving DecidableEq, Repr

/-- One review: the reviewer's login and the review state, in the
API's chronological submission order. -/
structure Review where
login : String
state : ReviewState
deriving DecidableEq, Repr

/-- Mode of an `approval_gate` rule (`"any" | "all"`, default `"any"`). -/
inductive ReqMode where
| any
| all
deriving DecidableEq, Repr

/-- One step of the latest-review fold in
`ApprovalGateCheck.getLatestReviews`: skip COMMENTED and DISMISSED,
otherwise store the lowercased login's state (JS `Map.set`). -/
def latestStep (m : List (String × ReviewState)) (r : Review) :
List (String × ReviewState) :=
if r.state = ReviewState.commented || r.state = ReviewState.dismissed then m
else jsMapSet m (strToLower r.login) r.state

/-- getLatestReviews from `approval-gate.ts`: one latest meaningful
state per (case-insensitive) reviewer, in JS `Map` value order. -/
def getLatestReviews (reviews : List Review) : List (String × ReviewState) :=
reviews.foldl latestStep []

/-- The `approvers` list of `evaluateApprovals`. -/
def approversOf (reviews : List (String × ReviewState)) : List String :=
(reviews.filter (fun r => r.2 = ReviewState.approved)).map (fun r => r.1)

/-- The `blockers` list of `evaluateApprovals`. -/
def blockersOf (reviews : List (String × ReviewState)) : List String :=
(reviews.filter (fun r => r.2 = ReviewState.changes_requested)).map (fun r => r.1)

/-- ApprovalStatus from `approval-gate.ts`. -/
structure ApprovalStatus where
passed : Bool
approvers : List String
missingRequirements : List String
blockers : List String
deriving DecidableEq, Repr

/-- The requirement list of `evaluateApprovals`: one `(label,
valid-approver set)` entry per configured team and per configured user. -/
def requirementsOf (requiredTeams requiredUsers : List String)
(teamMembers : List (String × List String)) : List (String × List String) :=
requiredTeams.map (fun t => ("@" ++ t, (jsMapGet teamMembers t).getD []))
  ++ requiredUsers.map (fun u => ("@" ++ u, [strToLower u]))

/-- ApprovalGateCheck.evaluateApprovals from `approval-gate.ts`, with
the resolved team-membership map passed in (members lowercased by
`getTeamMembersMap`). -/
def evaluateApprovals (reviews : List (String × ReviewState))
(requiredTeams requiredUsers : List String)
(teamMembers : List (String × List String)) (mode : ReqMode) : ApprovalStatus :=
let approvers := approversOf reviews
let blockers := blockersOf reviews
if blockers.length > 0 then
  { passed := false, approvers := [], missingRequirements := [], blockers := blockers }
else
  let requirements := requirementsOf requiredTeams requiredUsers teamMembers
  let satisfied := (requirements.filter
    (fun req => req.2.any (fun v => approvers.contains v))).map (fun req => req.1)
  let missing := (requirements.filter
    (fun req => !(req.2.any (fun v => approvers.contains v)))).map (fun req => req.1)
  let passed : Bool := if mode = ReqMode.any then decide (satisfied.length > 0)
    else missing.length == 0
  let relevantApprovers := approvers.filter
    (fun a => requirements.any (fun req => req.2.contains a))
  { passed := passed, approvers := relevantApprovers,
    missingRequirements := missing, blockers := [] }

/-- Result assembly of `ApprovalGateCheck.execute` (step 4). -/
def approvalGateResult (status : ApprovalStatus)
(requiredTeams requiredUsers : List String) (mode : ReqMode) : CheckResult :=
if status.blockers.length > 0 then
  { conclusion := Conclusion.failure,
    title := "Changes requested",
    summary := "The following reviewer(s) have requested changes: "
      ++ String.intercalate ", " (status.blockers.map (fun b => "@" ++ b))
      ++ ".\n\nResolve the requested changes and re-request approval." }
else if status.passed then
  { conclusion := Conclusion.success,
    title := "Approval requirements met",
    summary := "Approved by: "
      ++ String.intercalate ", " (status.approvers.map (fun a => "@" ++ a))
      ++ "\n\nRequired "
      ++ (if mode = ReqMode.all then "all of" else "at least one of") ++ ": "
      ++ String.intercalate ", " (requiredTeams.map (fun t => "@" ++ t)
        ++ requiredUsers.map (fun u => "@" ++ u)) }
else
  { conclusion := Conclusion.failure,
    title := "Approval required from: "
      ++ String.intercalate ", " status.missingRequirements,
    summary := "No approving reviews from the required teams/users.\n\nRequired "
      ++ (if mode = ReqMode.all then "all of" else "at least one of") ++ ": "
      ++ String.intercalate ", " (requiredTeams.map (fun t => "@" ++ t)
        ++ requiredUsers.map (fun u => "@" ++ u)) }

/-- ApprovalGateCheck.execute from `approval-gate.ts` as a pure
function of the fetched review list and team-membership map. -/
def approvalGateExecute (reviews : List Review)
(requiredTeams requiredUsers : List String)
(teamMembers : List (String × List String)) (mode : ReqMode) : CheckResult :=
approvalGateResult
  (evaluateApprovals (getLatestReviews reviews) requiredTeams requiredUsers
    teamMembers mode)
  requiredTeams requiredUsers mode

/-- The chronologically last review by the reviewer with lowercased
login `u` (matched case-insensitively) that is neither COMMENTED nor
DISMISSED — the specification-side reading of the latest meaningful
state. -/
def lastMeaningful (reviews : List Review) (u : String) : Option ReviewState :=
(reviews.reverse.find? (fun r =>
  !(r.state = ReviewState.commented || r.state = ReviewState.dismissed)
  && strToLower r.login = u)).map (fun r => r.state)

/-- A team requirement is satisfied when some member of the team has
an approving latest review (the `some`-test of `evaluateApprovals`). -/
def teamSatisfied (teamMembers : List (String × List String))
(approvers : List String) (t : String) : Bool :=
((jsMapGet teamMembers t).getD []).any (fun v => approvers.contains v)

/-- A user requirement is satisfied when that (lowercased) login has
an approving latest review. -/
def userSatisfied (approvers : List String) (u : String) : Bool :=
approvers.contains (strToLower u)

/-- Reviewer-request payload: users and teams to request review from. -/
structure ReviewerRequest where
users : List String
teams : List String
deriving DecidableEq, Repr

/-- Modelled from the spec: the config-gated reviewer auto-request side
effect of `approval_gate` (`auto_request_reviewers`), whose
implementation is not among the provided sources — the README
documents the option but the schema in `types.ts` and
`ApprovalGateCheck` carry no trace of it. Per the spec: when enabled
and the check fails because requirements are unmet (never when the
failure cause is a changes-requested review), request review from
exactly the users and teams belonging to unmet requirements. -/
def autoRequestTargets (enabled : Bool) (reviews : List (String × ReviewState))
(requiredTeams requiredUsers : List String)
(teamMembers : List (String × List String)) (mode : ReqMode) : ReviewerRequest :=
let st := evaluateApprovals reviews requiredTeams requiredUsers teamMembers mode
let approvers := approversOf reviews
if enabled && !st.passed && st.blockers.isEmpty then
  { users := requiredUsers.filter (fun u => !(userSatisfied approvers u)),
    teams := requiredTeams.filter (fun t => !(teamSatisfied teamMembers approvers t)) }
else ⟨[], []⟩

/-- Substring occurrence test on character lists (JS
`String.prototype.includes`): the pattern is a prefix at some
position. -/
def containsSub (pat : List Char) : List Char → Bool
| [] => pat.isEmpty
| c :: rest => pat.isPrefixOf (c :: rest) || containsSub pat rest

/-- JS `s.includes(pat)`. -/
def strIncludes (s pat : String) : Bool :=
containsSub pat.data s.data

/-- COMMENT_MARKER from `pr-comment.ts`. -/
def commentMarker : String := "<!-- branch-guard-status -->"

/-- buildSuccessBody from `pr-comment.ts`. -/
def buildSuccessBody : String :=
String.intercalate "\n"
  [commentMarker,
   "## ✅ Branch Guard: All checks passed",
   "",
   "All previously failing checks have been resolved.",
   "",
   "> *This comment is posted by BranchGuard and updates automatically.*"]

/-- BotComment from `pr-comment.ts`: comment id and body. -/
structure BotComment where
id : Nat
body : String
deriving DecidableEq, Repr

/-- findBotComment from `pr-comment.ts`: the paginated scan returns
the first comment (in listing order) whose body includes the marker;
`comments` is the concatenation of all pages. -/
def findBotComment (comments : List BotComment) : Option BotComment :=
comments.find? (fun c => strIncludes c.body commentMarker)

/-- An outbound PR-comment mutation. -/
inductive CommentAction where
| create (body : String)
| update (id : Nat) (body : String)
deriving DecidableEq, Repr

/-- updateCommentToSuccess from `pr-comment.ts`, returning the list of
outbound comment mutations it performs: nothing when no marker comment
exists, nothing when the found comment already shows
"All checks passed", otherwise one PATCH of that comment to the
success body. -/
def updateCommentToSuccess (comments : List BotComment) : List CommentAction :=
match findBotComment comments with
| none => []
| some existing =>
  if strIncludes existing.body "All checks passed" then []
  else [CommentAction.update existing.id buildSuccessBody]

/-- JS `s.startsWith(pre)`. -/
def strStartsWith (s pre : String) : Bool :=
pre.data.isPrefixOf s.data

/-- Check-run status values used by the orchestrator. -/
inductive RunStatus where
| queued
| in_progress
| completed
deriving DecidableEq, Repr

/-- CheckRunOutput from `types.ts`. -/
structure CheckRunOutput where
title : String
summary : String
text : Option String
deriving DecidableEq, Repr

/-- UpdateCheckRunParams from `types.ts` (the fields
`evaluateSingleRule` passes to `updateCheckRun`). -/
structure UpdateCheckRunParams where
checkRunId : Nat
status : Option RunStatus
conclusion : Option Conclusion
output : Option CheckRunOutput
deriving DecidableEq, Repr

/-- failure_message override of a rule (`title`/`summary`, each
optional). -/
structure FailureMessage where
title : Option String
summary : Option String
deriving DecidableEq, Repr

/-- The closed tagged union of rule configurations
(`z.discriminatedUnion` on `check_type` in `types.ts`). -/
inductive RuleConfig where
| file_presence
| file_pair (companion : CompanionSpec) (mode : PairMode)
| external_status (required_checks : List String) (timeout_minutes : Nat)
| branch_age (max_age_days : Nat)
| approval_gate (required_teams required_users : List String) (mode : ReqMode)
deriving DecidableEq, Repr

/-- A rule as the orchestrator consumes it (name, optional
failure_message, type-tagged config). -/
structure Rule where
name : String
failure_message : Option FailureMessage
config : RuleConfig
deriving DecidableEq, Repr

/-- The failure-message override step of `evaluateSingleRule`
(`evaluate.ts`): only a failure conclusion is overridden, title and
summary individually. -/
def applyFailureMessage (fm : Option FailureMessage) (r : CheckResult) : CheckResult :=
match fm with
| none => r
| some m =>
  if r.conclusion = Conclusion.failure then
    { r with title := m.title.getD r.title, summary := m.summary.getD r.summary }
  else r

/-- The completed-check update issued at the end of
`evaluateSingleRule`. -/
def completedUpdate (checkRunId : Nat) (result : CheckResult) : UpdateCheckRunParams :=
{ checkRunId := checkRunId, status := some RunStatus.completed,
  conclusion := some result.conclusion,
  output := some ⟨result.title, result.summary, result.details⟩ }

/-- The tail of `evaluateSingleRule` (`evaluate.ts`, after
`checkType.execute` returned `result0`): apply the failure-message
override, then either store a PendingEvaluation and keep the run
in-progress (external_status whose title signals an unresolved wait)
or complete the run with the result. Returns the updated pending store
and the check-run mutations issued. -/
def finalizeRuleCheck (owner repo headSha : String) (rule : Rule)
(checkRunId now : Nat) (result0 : CheckResult) (store : PendingStore) :
PendingStore × List UpdateCheckRunParams :=
let result := applyFailureMessage rule.failure_message result0
match rule.config with
| RuleConfig.external_status requiredChecks timeoutMinutes =>
  if strStartsWith result.title "Waiting for:" then
    (setPendingEvaluation store (getPendingKey owner repo headSha rule.name)
      { owner := owner, repo := repo, headSha := headSha, ruleName := rule.name,
        requiredChecks := requiredChecks, checkRunId := checkRunId,
        createdAt := now, timeoutMinutes := timeoutMinutes },
     [{ checkRunId := checkRunId, status := some RunStatus.in_progress,
        conclusion := none,
        output := some ⟨result.title, result.summary, result.details⟩ }])
  else (store, [completedUpdate checkRunId result])
| _ => (store, [completedUpdate checkRunId result])

/-- One orchestrator evaluation of an `external_status` rule whose
files matched: `ExternalStatusCheck.execute` against the remote
listing, then the `evaluateSingleRule` tail. -/
def evaluateExternalRule (owner repo headSha ruleName : String)
(fm : Option FailureMessage) (requiredChecks : List String)
(timeoutMinutes : Nat) (allRuns : List RemoteRun) (checkRunId now : Nat)
(store : PendingStore) : PendingStore × List UpdateCheckRunParams :=
let step := externalStatusExecute owner repo headSha ruleName requiredChecks
  timeoutMinutes allRuns store
finalizeRuleCheck owner repo headSha
  ⟨ruleName, fm, RuleConfig.external_status requiredChecks timeoutMinutes⟩
  checkRunId now step.1 step.2

/-- Deleting a key from the store makes lookups of that key miss. -/
theorem getPending_delete (store : PendingStore) (key : String) :
getPendingEvaluation (deletePendingEvaluation store key) key = none := by
have h : (store.filter (fun p => p.1 ≠ key)).find? (fun p => p.1 = key) = none := by
  rw [List.find?_eq_none]
  intro p hp
  simp only [List.mem_filter] at hp
  simpa using hp.2
simp [deletePendingEvaluation, getPendingEvaluation, jsMapGet, h]

/-- C5: for a fixed remote check-run listing, re-evaluating an
`external_status` rule yields the same classification whatever the
pending-store state is (so repeated evaluation is stable), and whenever
a terminal classification is produced — all required checks completed,
or some completed check failed, in `execute`; any resolved result,
including timeout, in `resolveIfReady` — the PendingEvaluation record
keyed by (owner, repo, head SHA, rule name) no longer exists in the
resulting store. -/
theorem externalStatus_stable_and_terminal_clears
(owner repo headSha ruleName : String) (requiredChecks : List String)
(timeoutMinutes : Nat) (allRuns : List RemoteRun) :
(∀ s₁ s₂ : PendingStore,
  (externalStatusExecute owner repo headSha ruleName requiredChecks timeoutMinutes allRuns s₁).1
    = (externalStatusExecute owner repo headSha ruleName requiredChecks timeoutMinutes allRuns s₂).1)
∧ (∀ store : PendingStore,
    (getRequiredCheckStatuses allRuns requiredChecks).all
        (fun s => s.status = ExtStatus.completed) = true
      ∨ (getRequiredCheckStatuses allRuns requiredChecks).any isFailedStatus = true →
    getPendingEvaluation
      (externalStatusExecute owner repo headSha ruleName requiredChecks timeoutMinutes allRuns store).2
      (getPendingKey owner repo headSha ruleName) = none)
∧ (∀ (ev : PendingEvaluation) (now : Nat) (store : PendingStore) (r : CheckResult),
    (resolveIfReady owner repo headSha ev now allRuns store).1 = some r →
    getPendingEvaluation (resolveIfReady owner repo headSha ev now allRuns store).2
      (getPendingKey owner repo headSha ev.ruleName) = none) := by
refine ⟨?_, ?_, ?_⟩
· intro s₁ s₂
  simp only [externalStatusExecute]
  split_ifs <;> rfl
· intro store hterm
  by_cases hAny : (getRequiredCheckStatuses allRuns requiredChecks).any isFailedStatus = true
  · simp [externalStatusExecute, hAny, getPending_delete]
  · have hAll : (getRequiredCheckStatuses allRuns requiredChecks).all
        (fun s => s.status = ExtStatus.completed) = true := by
      rcases hterm with h | h
      · exact h
      · exact absurd h hAny
    simp [externalStatusExecute, hAll, hAny, getPending_delete]
· intro ev now store r hres
  by_cases htime : now - ev.createdAt > ev.timeoutMinutes * 60 * 1000
  · simp [resolveIfReady, htime, getPending_delete]
  · by_cases hAny : (getRequiredCheckStatuses allRuns ev.requiredChecks).any isFailedStatus = true
    · simp [resolveIfReady, htime, hAny, getPending_delete]
    · by_cases hAll : (getRequiredCheckStatuses allRuns ev.requiredChecks).all
          (fun s => s.status = ExtStatus.completed) = true
      · simp [resolveIfReady, htime, hAll, hAny, getPending_delete]
      · exfalso
        simp [resolveIfReady, htime, hAll, hAny] at hres

/-- C5 witness: the theorem applied at concrete inputs — a resolved
success evaluation clears a previously stored record, and a timed-out
reactive resolution clears it as well. -/
theorem externalStatus_stable_and_terminal_clears_witness :
getPendingEvaluation
  (externalStatusExecute "o" "r" "sha1" "lint-check" ["lint"] 30
    [⟨"lint", "completed", some "success"⟩]
    [(getPendingKey "o" "r" "sha1" "lint-check",
      ⟨"o", "r", "sha1", "lint-check", ["lint"], 42, 0, 30⟩)]).2
  (getPendingKey "o" "r" "sha1" "lint-check") = none
∧ getPendingEvaluation
    (resolveIfReady "o" "r" "sha1"
      ⟨"o", "r", "sha1", "lint-check", ["lint"], 42, 0, 1⟩ 120000
      [⟨"lint", "in_progress", none⟩]
      [(getPendingKey "o" "r" "sha1" "lint-check",
        ⟨"o", "r", "sha1", "lint-check", ["lint"], 42, 0, 1⟩)]).2
    (getPendingKey "o" "r" "sha1" "lint-check") = none := by
constructor
· exact (externalStatus_stable_and_terminal_clears "o" "r" "sha1" "lint-check"
    ["lint"] 30 [⟨"lint", "completed", some "success"⟩]).2.1 _ (Or.inl (by decide))
· exact (externalStatus_stable_and_terminal_clears "o" "r" "sha1" "lint-check"
    ["lint"] 1 [⟨"lint", "in_progress", none⟩]).2.2
    ⟨"o", "r", "sha1", "lint-check", ["lint"], 42, 0, 1⟩ 120000 _
    (externalTimeoutResult ⟨"o", "r", "sha1", "lint-check", ["lint"], 42, 0, 1⟩)
    (by decide)

/-- C6: in reactive resolution of a PendingEvaluation the timeout test
comes first: whenever the current time exceeds `createdAt` plus
`timeoutMinutes` (in milliseconds), `resolveIfReady` returns the
terminal timed-out failure and deletes the record — for every remote
check-run listing, so the states of the required checks are never
consulted. -/
theorem resolveIfReady_timeout_first
(owner repo headSha : String) (ev : PendingEvaluation) (now : Nat)
(allRuns : List RemoteRun) (store : PendingStore)
(h : ev.createdAt + ev.timeoutMinutes * 60 * 1000 < now) :
resolveIfReady owner repo headSha ev now allRuns store
  = (some (externalTimeoutResult ev),
     deletePendingEvaluation store (getPendingKey owner repo headSha ev.ruleName))
∧ (externalTimeoutResult ev).conclusion = Conclusion.failure
∧ getPendingEvaluation (resolveIfReady owner repo headSha ev now allRuns store).2
    (getPendingKey owner repo headSha ev.ruleName) = none := by
have htime : now - ev.createdAt > ev.timeoutMinutes * 60 * 1000 := by omega
refine ⟨?_, rfl, ?_⟩
· simp [resolveIfReady, htime]
· simp [resolveIfReady, htime, getPending_delete]

/-- C6 witness: a concrete pending evaluation 2 minutes past a 1-minute
timeout resolves to the timed-out failure even though its required
check has completed successfully in the remote listing. -/
theorem resolveIfReady_timeout_first_witness :
resolveIfReady "o" "r" "sha1"
    ⟨"o", "r", "sha1", "lint-check", ["lint"], 42, 1000, 1⟩ 181000
    [⟨"lint", "completed", some "success"⟩]
    [(getPendingKey "o" "r" "sha1" "lint-check",
      ⟨"o", "r", "sha1", "lint-check", ["lint"], 42, 1000, 1⟩)]
  = (some (externalTimeoutResult ⟨"o", "r", "sha1", "lint-check", ["lint"], 42, 1000, 1⟩),
     deletePendingEvaluation
       [(getPendingKey "o" "r" "sha1" "lint-check",
         ⟨"o", "r", "sha1", "lint-check", ["lint"], 42, 1000, 1⟩)]
       (getPendingKey "o" "r" "sha1" "lint-check")) :=
(resolveIfReady_timeout_first "o" "r" "sha1"
  ⟨"o", "r", "sha1", "lint-check", ["lint"], 42, 1000, 1⟩ 181000
  [⟨"lint", "completed", some "success"⟩]
  [(getPendingKey "o" "r" "sha1" "lint-check",
    ⟨"o", "r", "sha1", "lint-check", ["lint"], 42, 1000, 1⟩)]
  (by decide)).1

/-- Loop invariant of `withRetryFrom`: at most `k` further retries, the
re-raised error is the outcome of the last call made, and the delay
before retry `i` is the positive `retry-after` value in milliseconds
when available, else `baseDelayMs * 2 ^ attempt`. -/
theorem withRetryFrom_spec {α : Type} (calls : Nat → Except HttpError α)
(baseDelayMs : Nat) :
∀ (k attempt : Nat),
  (withRetryFrom calls baseDelayMs attempt k).2.length ≤ k
  ∧ (∀ e, (withRetryFrom calls baseDelayMs attempt k).1 = Except.error e →
      calls (attempt + (withRetryFrom calls baseDelayMs attempt k).2.length) = Except.error e)
  ∧ (∀ (i : Nat) (h : i < (withRetryFrom calls baseDelayMs attempt k).2.length),
      ∃ e, calls (attempt + i) = Except.error e ∧ isRetryable e = true ∧
        (withRetryFrom calls baseDelayMs attempt k).2.get ⟨i, h⟩
          = (getRetryAfterMs e).getD (baseDelayMs * 2 ^ (attempt + i))) := by
intro k
induction k with
| zero =>
  intro attempt
  refine ⟨Nat.le_refl 0, ?_, ?_⟩
  · intro e he
    simpa [withRetryFrom] using he
  · intro i h
    simp [withRetryFrom] at h
| succ k ih =>
  intro attempt
  rcases hcall : calls attempt with e | v
  · by_cases hretry : isRetryable e = true
    · have hrest := ih (attempt + 1)
      refine ⟨?_, ?_, ?_⟩
      · simp only [withRetryFrom, hcall, hretry, if_true, List.length_cons]
        exact Nat.succ_le_succ hrest.1
      · intro e' he'
        simp only [withRetryFrom, hcall, hretry, if_true, List.length_cons] at he' ⊢
        have := hrest.2.1 e' he'
        have harith : attempt + ((withRetryFrom calls baseDelayMs (attempt + 1) k).2.length + 1)
            = attempt + 1 + (withRetryFrom calls baseDelayMs (attempt + 1) k).2.length := by
          omega
        rw [harith]
        exact this
      · intro i h
        match i with
        | 0 =>
          refine ⟨e, by simpa using hcall, hretry, ?_⟩
          simp [withRetryFrom, hcall, hretry]
        | Nat.succ j =>
          simp only [withRetryFrom, hcall, hretry, if_true, List.length_cons] at h
          have hj : j < (withRetryFrom calls baseDelayMs (attempt + 1) k).2.length :=
            Nat.lt_of_succ_lt_succ h
          obtain ⟨e', he', hr', hd'⟩ := hrest.2.2 j hj
          refine ⟨e', ?_, hr', ?_⟩
          · have harith : attempt + (j + 1) = attempt + 1 + j := by omega
            rw [harith]
            exact he'
          · have harith : attempt + (j + 1) = attempt + 1 + j := by omega
            rw [harith]
            simpa [withRetryFrom, hcall, hretry] using hd'
    · have hstep : withRetryFrom calls baseDelayMs attempt (k + 1) = (Except.error e, []) := by
        simp [withRetryFrom, hcall, hretry]
      refine ⟨?_, ?_, ?_⟩
      · simp [hstep]
      · intro e' he'
        rw [hstep] at he' ⊢
        simpa [hcall] using he'
      · intro i h
        simp [hstep] at h
  · have hstep : withRetryFrom calls baseDelayMs attempt (k + 1) = (Except.ok v, []) := by
      simp [withRetryFrom, hcall]
    refine ⟨?_, ?_, ?_⟩
    · simp [hstep]
    · intro e' he'
      simp [hstep] at he'
    · intro i h
      simp [hstep] at h

/-- C4 (amended): the retry executor retries exactly on 429/500/502/503
or on 403 with a rate-limit signal; it performs at most `maxRetries`
retries and re-raises the outcome of the last call unchanged; the delay
before retry `i` is the `retry-after` header value in seconds (as
milliseconds) when present with a positive numeric value, else
`baseDelayMs * 2 ^ i`; an unretryable first failure (plain 403, 404) is
re-raised immediately with no retry. -/
theorem withRetry_spec {α : Type} (calls : Nat → Except HttpError α)
(maxRetries baseDelayMs : Nat) :
(∀ e : HttpError, isRetryable e = true ↔
  (e.status = some 429 ∨ e.status = some 500 ∨ e.status = some 502 ∨ e.status = some 503
   ∨ (e.status = some 403
      ∧ (e.retryAfterSeconds ≠ none ∨ e.rateLimitRemaining = some "0"))))
∧ (withRetry calls maxRetries baseDelayMs).2.length ≤ maxRetries
∧ (∀ e, (withRetry calls maxRetries baseDelayMs).1 = Except.error e →
    calls (withRetry calls maxRetries baseDelayMs).2.length = Except.error e)
∧ (∀ (i : Nat) (h : i < (withRetry calls maxRetries baseDelayMs).2.length),
    ∃ e, calls i = Except.error e ∧ isRetryable e = true ∧
      (withRetry calls maxRetries baseDelayMs).2.get ⟨i, h⟩
        = (getRetryAfterMs e).getD (baseDelayMs * 2 ^ i))
∧ (∀ (e : HttpError) (n : Nat), e.retryAfterSeconds = some n → 0 < n →
    getRetryAfterMs e = some (n * 1000))
∧ (∀ e, calls 0 = Except.error e → isRetryable e = false →
    withRetry calls maxRetries baseDelayMs = (Except.error e, [])) := by
have hspec := withRetryFrom_spec calls baseDelayMs maxRetries 0
refine ⟨?_, hspec.1, ?_, ?_, ?_, ?_⟩
· intro e
  rcases e with ⟨st, ra, rl⟩
  cases st with
  | none => simp [isRetryable]
  | some s =>
    simp only [isRetryable, retryableStatuses]
    constructor
    · intro h
      split_ifs at h with h0 hmem h403
      · replace hmem : s ∈ [429, 500, 502, 503] := by
          simpa [List.contains, List.elem_eq_mem] using hmem
        fin_cases hmem <;> simp
      · subst h403
        simp only [isRateLimited403, Bool.or_eq_true, decide_eq_true_eq] at h
        refine Or.inr (Or.inr (Or.inr (Or.inr ⟨rfl, ?_⟩)))
        rcases h with h | h
        · exact Or.inl (Option.isSome_iff_ne_none.mp h)
        · exact Or.inr h
    · intro h
      have hs : s = 429 ∨ s = 500 ∨ s = 502 ∨ s = 503
          ∨ (s = 403 ∧ (ra ≠ none ∨ rl = some "0")) := by
        rcases h with h | h | h | h | ⟨h, hx⟩ <;> simp only [Option.some.injEq] at h
        · exact Or.inl h
        · exact Or.inr (Or.inl h)
        · exact Or.inr (Or.inr (Or.inl h))
        · exact Or.inr (Or.inr (Or.inr (Or.inl h)))
        · exact Or.inr (Or.inr (Or.inr (Or.inr ⟨h, hx⟩)))
      rcases hs with h' | h' | h' | h' | ⟨h', hx⟩ <;> subst h'
      · rfl
      · rfl
      · rfl
      · rfl
      · rcases hx with hx | hx
        · simp [isRateLimited403, Option.isSome_iff_ne_none, hx]
        · simp [isRateLimited403, hx]
· intro e he
  simpa using hspec.2.1 e he
· intro i h
  obtain ⟨e, he, hr, hd⟩ := hspec.2.2 i h
  exact ⟨e, by simpa using he, hr, by simpa using hd⟩
· intro e n hra hn
  simp [getRetryAfterMs, hra, hn]
· intro e he hnr
  cases maxRetries with
  | zero => simp [withRetry, withRetryFrom, he]
  | succ k => simp [withRetry, withRetryFrom, he, hnr]

/-- C4 counterexample to the claim as stated: a 429 whose `retry-after`
header is present with value `0` seconds is retried after the
exponential-backoff delay (1000 ms), not after the header's 0 seconds. -/
theorem withRetry_retryAfter_zero_counterexample :
(withRetry (fun _ => (Except.error ⟨some 429, some 0, none⟩ : Except HttpError Nat)) 1 1000).2
  = [1000]
∧ (⟨some 429, some 0, none⟩ : HttpError).retryAfterSeconds = some 0
∧ (1000 : Nat) ≠ 0 * 1000 := by
refine ⟨rfl, rfl, by decide⟩

/-- C4 witness: the amended theorem applied to a run in which every
call fails with a rate-limited 429 carrying `retry-after: 5` —
two retries are performed, the last error is re-raised, and each delay
is the header's 5000 ms; and to a run failing with a plain 403, which
is re-raised with no retries. -/
theorem withRetry_spec_witness :
calls429 (withRetry calls429 2 100).2.length = Except.error err429
∧ (withRetry calls429 2 100).2.length ≤ 2
∧ withRetry calls403 2 100 = (Except.error err403, [])
∧ getRetryAfterMs err429 = some 5000 := by
refine ⟨(withRetry_spec calls429 2 100).2.2.1 err429 rfl,
  (withRetry_spec calls429 2 100).2.1,
  (withRetry_spec calls403 2 100).2.2.2.2.2 err403 rfl (by decide),
  (withRetry_spec calls429 2 100).2.2.2.2.1 err429 5 rfl (by decide)⟩

/-- Projecting the first components of a filtered pairing recovers a
plain filter of the original list. -/
theorem filter_snd_map_pair {α : Type} (f : α → Bool) (p : Bool → Bool)
(l : List α) :
((l.map (fun c => (c, f c))).filter (fun c => p c.2)).map (fun c => c.1)
  = l.filter (fun c => p (f c)) := by
induction l with
| nil => rfl
| cons c rest ih =>
  simp only [List.map_cons, List.filter_cons]
  cases hb : p (f c) with
  | true => simp [hb, ih]
  | false => simp [hb, ih]

/-- C9: `file_pair` with mode `all` succeeds iff every companion path
is among the changed files, with mode `any` iff at least one is, and on
failure the summary lists exactly the companions not present in the
changed-file set. -/
theorem filePair_modes (companion : CompanionSpec) (mode : PairMode)
(includePatterns changedFiles : List String) :
(mode = PairMode.all →
  ((filePairExecute companion mode includePatterns changedFiles).conclusion
      = Conclusion.success
    ↔ ∀ c ∈ companionList companion, c ∈ changedFiles))
∧ (mode = PairMode.any →
  ((filePairExecute companion mode includePatterns changedFiles).conclusion
      = Conclusion.success
    ↔ ∃ c ∈ companionList companion, c ∈ changedFiles))
∧ ((filePairExecute companion mode includePatterns changedFiles).conclusion
      = Conclusion.failure →
    (filePairExecute companion mode includePatterns changedFiles).summary
      = "Changes matching `" ++ String.intercalate ", " includePatterns
        ++ "` require the following companion file(s) to also be updated:\n\n"
        ++ String.intercalate "\n"
          (((companionList companion).filter
            (fun c => !(changedFiles.contains c))).map (fun c => "- " ++ c))) := by
have hmiss : (((companionList companion).map
    (fun c => (c, changedFiles.contains c))).filter (fun c => !c.2)).map (fun c => c.1)
  = (companionList companion).filter (fun c => !(changedFiles.contains c)) :=
  filter_snd_map_pair (fun c => changedFiles.contains c) (fun b => !b)
    (companionList companion)
have hchanged : (((companionList companion).map
    (fun c => (c, changedFiles.contains c))).filter (fun c => c.2)).map (fun c => c.1)
  = (companionList companion).filter (fun c => changedFiles.contains c) :=
  filter_snd_map_pair (fun c => changedFiles.contains c) (fun b => b)
    (companionList companion)
have hmisslen : (((companionList companion).map
    (fun c => (c, changedFiles.contains c))).filter (fun c => !c.2)).length
  = ((companionList companion).filter (fun c => !(changedFiles.contains c))).length := by
  rw [← hmiss, List.length_map]
have hchlen : (((companionList companion).map
    (fun c => (c, changedFiles.contains c))).filter (fun c => c.2)).length
  = ((companionList companion).filter (fun c => changedFiles.contains c)).length := by
  rw [← hchanged, List.length_map]
refine ⟨?_, ?_, ?_⟩
· intro hmode
  subst hmode
  by_cases hp : (((companionList companion).map
      (fun c => (c, changedFiles.contains c))).filter (fun c => !c.2)).length = 0
  · have hall : ∀ c ∈ companionList companion, c ∈ changedFiles := by
      rw [hmisslen, List.length_eq_zero, List.filter_eq_nil_iff] at hp
      intro c hc
      have := hp c hc
      simpa using this
    refine iff_of_true ?_ hall
    simp only [filePairExecute]
    simp
    rw [if_pos hall]
  · have hnotall : ¬ ∀ c ∈ companionList companion, c ∈ changedFiles := by
      intro hall
      apply hp
      rw [hmisslen, List.length_eq_zero, List.filter_eq_nil_iff]
      intro c hc
      simp [hall c hc]
    refine iff_of_false ?_ hnotall
    simp only [filePairExecute]
    simp
    rw [if_neg hnotall]
    simp
· intro hmode
  subst hmode
  by_cases hp : 0 < (((companionList companion).map
      (fun c => (c, changedFiles.contains c))).filter (fun c => c.2)).length
  · have hex : ∃ c ∈ companionList companion, c ∈ changedFiles := by
      rw [hchlen] at hp
      obtain ⟨c, hc⟩ := List.exists_mem_of_length_pos hp
      rw [List.mem_filter] at hc
      exact ⟨c, hc.1, by simpa using hc.2⟩
    refine iff_of_true ?_ hex
    simp only [filePairExecute]
    simp at hp
    simp
    rw [if_pos hp]
  · have hnex : ¬ ∃ c ∈ companionList companion, c ∈ changedFiles := by
      rintro ⟨c, hc, hmem⟩
      apply hp
      rw [hchlen]
      refine List.length_pos_of_mem (a := c) ?_
      rw [List.mem_filter]
      exact ⟨hc, by simpa using hmem⟩
    refine iff_of_false ?_ hnex
    simp only [filePairExecute]
    simp
    rw [if_neg (by simpa using hp)]
    simp
· intro hfail
  by_cases hpass : (if mode = PairMode.all
      then ((((companionList companion).map
        (fun c => (c, changedFiles.contains c))).filter (fun c => !c.2)).length == 0)
      else decide ((((companionList companion).map
        (fun c => (c, changedFiles.contains c))).filter (fun c => c.2)).length > 0)) = true
  · exfalso
    simp only [filePairExecute] at hfail
    rw [if_pos hpass] at hfail
    simp at hfail
  · simp only [filePairExecute]
    rw [if_neg hpass, ← hmiss, List.map_map]
    rfl

/-- C9 witness: the `lockfile-check` scenario — companion
`package-lock.json`, changed files `["package.json"]`, default mode
`any` — fails, and its summary names exactly `package-lock.json`. -/
theorem filePair_modes_witness :
((filePairExecute (CompanionSpec.one "package-lock.json") PairMode.any
    ["package.json"] ["package.json"]).conclusion = Conclusion.success ↔
  ∃ c ∈ companionList (CompanionSpec.one "package-lock.json"), c ∈ ["package.json"])
∧ (filePairExecute (CompanionSpec.one "package-lock.json") PairMode.any
    ["package.json"] ["package.json"]).summary
  = "Changes matching `package.json` require the following companion file(s) to also be updated:\n\n- package-lock.json" := by
constructor
· exact (filePair_modes (CompanionSpec.one "package-lock.json") PairMode.any
    ["package.json"] ["package.json"]).2.1 rfl
· exact (filePair_modes (CompanionSpec.one "package-lock.json") PairMode.any
    ["package.json"] ["package.json"]).2.2 (by decide)

/-- C8: `branch_age` fails with an explicit unable-to-determine result
when the merge-base timestamp is unavailable; otherwise it computes
elapsed whole days as the floor of `(now - mergeBaseTime) / 86400s` and
succeeds iff that is at most `max_age_days`, the failure title naming
the configured limit. -/
theorem branchAge_boundary (maxAgeDays : Nat) (baseBranch : String) (nowMs : Int) :
(branchAgeExecute maxAgeDays baseBranch none nowMs).conclusion = Conclusion.failure
∧ (branchAgeExecute maxAgeDays baseBranch none nowMs).title
    = "Unable to determine branch age"
∧ (∀ t : Int,
    ((branchAgeExecute maxAgeDays baseBranch (some t) nowMs).conclusion
        = Conclusion.success
      ↔ Int.fdiv (nowMs - t) 86400000 ≤ (maxAgeDays : Int)))
∧ (∀ t : Int, ¬ Int.fdiv (nowMs - t) 86400000 ≤ (maxAgeDays : Int) →
    (branchAgeExecute maxAgeDays baseBranch (some t) nowMs).title
      = "Branch is " ++ toString (Int.fdiv (nowMs - t) 86400000)
        ++ " day(s) old (max: " ++ toString maxAgeDays ++ ")") := by
refine ⟨rfl, rfl, ?_, ?_⟩
· intro t
  by_cases h : Int.fdiv (nowMs - t) 86400000 ≤ (maxAgeDays : Int)
  · simp [branchAgeExecute, h]
  · simp [branchAgeExecute, h]
· intro t h
  simp [branchAgeExecute, h]

/-- C8 witness: with `max_age_days = 14`, a merge base exactly 14 days
old passes, and one 15 days old fails with a title naming the 14-day
limit. -/
theorem branchAge_boundary_witness :
(branchAgeExecute 14 "main" (some 0) 1209600000).conclusion = Conclusion.success
∧ (branchAgeExecute 14 "main" (some 0) 1296000000).title
    = "Branch is 15 day(s) old (max: 14)" := by
constructor
· exact ((branchAge_boundary 14 "main" 1209600000).2.2.1 0).mpr (by decide)
· exact (branchAge_boundary 14 "main" 1296000000).2.2.2 0 (by decide)

/-- C2: `file_presence` succeeds iff every element of
`baseFiles \ headFiles` is an allowlisted path scoped (by exact rule
name and exact path match) to this rule; on failure the reported title
counts exactly the difference minus the allowlisted paths and the
details render exactly that list; when the difference is non-empty but
fully allowlisted, the result is success and the allowed deletions with
their reasons are surfaced in the details. -/
theorem filePresence_allowlist (baseFiles headFiles : List String)
(entries : List AllowlistEntry) (ruleName baseBranch : String) :
((filePresenceExecute baseFiles headFiles entries ruleName baseBranch).conclusion
    = Conclusion.success
  ↔ ∀ f ∈ missingFrom baseFiles headFiles, f ∈ allowedPathsFor entries ruleName)
∧ ((filePresenceExecute baseFiles headFiles entries ruleName baseBranch).conclusion
      = Conclusion.failure →
    (filePresenceExecute baseFiles headFiles entries ruleName baseBranch).title
      = "Missing " ++ toString ((missingFrom baseFiles headFiles).filter
          (fun f => !((allowedPathsFor entries ruleName).contains f))).length
        ++ " file(s) from " ++ baseBranch
    ∧ (filePresenceExecute baseFiles headFiles entries ruleName baseBranch).details
      = some (if ((missingFrom baseFiles headFiles).filter
            (fun f => (allowedPathsFor entries ruleName).contains f)).length > 0
          then "**Missing:**\n"
            ++ String.intercalate "\n" (((missingFrom baseFiles headFiles).filter
              (fun f => !((allowedPathsFor entries ruleName).contains f))).map
                (fun f => "- " ++ f))
            ++ "\n\nRebase on " ++ baseBranch ++ " and resolve the missing files."
            ++ "\n\n**Allowed deletions (via PR description):**\n"
            ++ allowedDeletionLines (getAllowedFilesForRule entries ruleName)
                 (missingFrom baseFiles headFiles)
          else "**Missing:**\n"
            ++ String.intercalate "\n" (((missingFrom baseFiles headFiles).filter
              (fun f => !((allowedPathsFor entries ruleName).contains f))).map
                (fun f => "- " ++ f))
            ++ "\n\nRebase on " ++ baseBranch ++ " and resolve the missing files."))
∧ (missingFrom baseFiles headFiles ≠ [] →
   (∀ f ∈ missingFrom baseFiles headFiles, f ∈ allowedPathsFor entries ruleName) →
   (filePresenceExecute baseFiles headFiles entries ruleName baseBranch).conclusion
       = Conclusion.success
   ∧ (filePresenceExecute baseFiles headFiles entries ruleName baseBranch).details
       = some ("**Allowed deletions (via PR description):**\n"
         ++ allowedDeletionLines (getAllowedFilesForRule entries ruleName)
              (missingFrom baseFiles headFiles))) := by
by_cases h0 : (missingFrom baseFiles headFiles).length = 0
· have hM : missingFrom baseFiles headFiles = [] := List.length_eq_zero.mp h0
  refine ⟨?_, ?_, ?_⟩
  · refine iff_of_true ?_ ?_
    · simp only [filePresenceExecute]
      rw [if_pos h0]
    · intro f hf
      rw [hM] at hf
      cases hf
  · intro hfail
    exfalso
    simp only [filePresenceExecute] at hfail
    rw [if_pos h0] at hfail
    simp at hfail
  · intro hne _
    exact absurd hM hne
· by_cases h1 : ((missingFrom baseFiles headFiles).filter
      (fun f => !((allowedPathsFor entries ruleName).contains f))).length = 0
  · have hall : ∀ f ∈ missingFrom baseFiles headFiles,
        f ∈ allowedPathsFor entries ruleName := by
      rw [List.length_eq_zero, List.filter_eq_nil_iff] at h1
      intro f hf
      have := h1 f hf
      simpa using this
    refine ⟨?_, ?_, ?_⟩
    · refine iff_of_true ?_ hall
      simp only [filePresenceExecute]
      rw [if_neg h0, if_pos h1]
    · intro hfail
      exfalso
      simp only [filePresenceExecute] at hfail
      rw [if_neg h0, if_pos h1] at hfail
      simp at hfail
    · intro _ _
      constructor
      · simp only [filePresenceExecute]
        rw [if_neg h0, if_pos h1]
      · simp only [filePresenceExecute]
        rw [if_neg h0, if_pos h1]
  · have hnall : ¬ ∀ f ∈ missingFrom baseFiles headFiles,
        f ∈ allowedPathsFor entries ruleName := by
      intro hall
      apply h1
      rw [List.length_eq_zero, List.filter_eq_nil_iff]
      intro f hf
      simp [hall f hf]
    refine ⟨?_, ?_, ?_⟩
    · refine iff_of_false ?_ hnall
      simp only [filePresenceExecute]
      rw [if_neg h0, if_neg h1]
      simp
    · intro _
      constructor
      · simp only [filePresenceExecute]
        rw [if_neg h0, if_neg h1]
      · simp only [filePresenceExecute]
        rw [if_neg h0, if_neg h1]
    · intro _ hall
      exact absurd hall hnall

/-- C2 witness: the spec scenario — base `["a.sql","b.sql"]`, head
`["a.sql"]`, no allowlist — fails with exactly `b.sql` counted missing;
with a `migration-sync`-scoped allowlist entry for `b.sql`, the same
trees succeed and the details surface the allowed deletion with its
reason. -/
theorem filePresence_allowlist_witness :
(filePresenceExecute ["a.sql", "b.sql"] ["a.sql"] [] "migration-sync" "main").title
  = "Missing 1 file(s) from main"
∧ (filePresenceExecute ["a.sql", "b.sql"] ["a.sql"]
    [⟨"migration-sync", "b.sql", "replaced by 003"⟩] "migration-sync" "main").conclusion
  = Conclusion.success
∧ (filePresenceExecute ["a.sql", "b.sql"] ["a.sql"]
    [⟨"migration-sync", "b.sql", "replaced by 003"⟩] "migration-sync" "main").details
  = some "**Allowed deletions (via PR description):**\n- b.sql (replaced by 003)" := by
refine ⟨((filePresence_allowlist ["a.sql", "b.sql"] ["a.sql"] []
    "migration-sync" "main").2.1 (by decide)).1, ?_, ?_⟩
· exact ((filePresence_allowlist ["a.sql", "b.sql"] ["a.sql"]
    [⟨"migration-sync", "b.sql", "replaced by 003"⟩] "migration-sync" "main").2.2
    (by decide) (by decide)).1
· have h := ((filePresence_allowlist ["a.sql", "b.sql"] ["a.sql"]
    [⟨"migration-sync", "b.sql", "replaced by 003"⟩] "migration-sync" "main").2.2
    (by decide) (by decide)).2
  rw [h]
  rfl

/-- Lookup steps through a cons cell of an association list. -/
theorem jsMapGet_cons {β : Type} (p : String × β) (rest : List (String × β))
(u : String) :
jsMapGet (p :: rest) u = if p.1 = u then some p.2 else jsMapGet rest u := by
by_cases h : p.1 = u
· simp [jsMapGet, List.find?_cons, h]
· simp [jsMapGet, List.find?_cons, h]

/-- Lookup after a JS `Map.set`: the written key reads back the written
value, other keys are unaffected. -/
theorem jsMapGet_set {β : Type} (m : List (String × β)) (k u : String) (v : β) :
jsMapGet (jsMapSet m k v) u = if u = k then some v else jsMapGet m u := by
induction m with
| nil =>
  by_cases h : u = k
  · simp [jsMapSet, jsMapGet, List.find?_cons, h]
  · have hk : ¬ k = u := fun hh => h (Eq.symm hh)
    simp [jsMapSet, jsMapGet, List.find?_cons, h, hk]
| cons p rest ih =>
  simp only [jsMapSet]
  by_cases hk : p.1 = k
  · rw [if_pos hk, jsMapGet_cons, jsMapGet_cons]
    by_cases hu : u = k
    · subst hu
      simp
    · have hku : ¬ k = u := fun h => hu h.symm
      have hpu : ¬ p.1 = u := by
        rw [hk]
        exact hku
      rw [if_neg hku, if_neg hu, if_neg hpu]
  · rw [if_neg hk, jsMapGet_cons, jsMapGet_cons, ih]
    by_cases hpu : p.1 = u
    · have hu : ¬ u = k := by
        intro h
        apply hk
        rw [hpu, h]
      rw [if_pos hpu, if_neg hu, if_pos hpu]
    · rw [if_neg hpu, if_neg hpu]

/-- Invariant of the latest-review fold: a lookup in the folded map
reads the last meaningful review of the processed suffix, falling back
to the accumulator. -/
theorem getLatest_aux (rs : List Review) :
∀ (m : List (String × ReviewState)) (u : String),
  jsMapGet (rs.foldl latestStep m) u = optOr (lastMeaningful rs u) (jsMapGet m u) := by
induction rs with
| nil =>
  intro m u
  simp [lastMeaningful, optOr]
| cons r rest ih =>
  intro m u
  rw [List.foldl_cons, ih]
  obtain ⟨login, state⟩ := r
  cases hA : lastMeaningful rest u with
  | some s =>
    rw [lastMeaningful] at hA ⊢
    simp only [List.reverse_cons, List.find?_append]
    rw [Option.map_eq_some'] at hA
    obtain ⟨x, hx, hxs⟩ := hA
    rw [hx]
    simp [optOr, hxs]
  | none =>
    rw [lastMeaningful] at hA ⊢
    simp only [List.reverse_cons, List.find?_append]
    rw [Option.map_eq_none'] at hA
    rw [hA]
    simp only [Option.none_or]
    cases state with
    | commented => simp [latestStep, optOr]
    | dismissed => simp [latestStep, optOr]
    | approved =>
      by_cases hl : strToLower login = u
      · simp [latestStep, jsMapGet_set, hl, optOr, List.find?_cons]
      · have hul : ¬ u = strToLower login := fun h => hl h.symm
        simp [latestStep, jsMapGet_set, hl, hul, optOr, List.find?_cons]
    | changes_requested =>
      by_cases hl : strToLower login = u
      · simp [latestStep, jsMapGet_set, hl, optOr, List.find?_cons]
      · have hul : ¬ u = strToLower login := fun h => hl h.symm
        simp [latestStep, jsMapGet_set, hl, hul, optOr, List.find?_cons]

/-- C3's core correspondence: the per-user state computed by
`getLatestReviews` is exactly the chronologically last non-COMMENTED,
non-DISMISSED review of that user — COMMENTED and DISMISSED never
overwrite an earlier meaningful state. -/
theorem getLatestReviews_lookup (rs : List Review) (u : String) :
jsMapGet (getLatestReviews rs) u = lastMeaningful rs u := by
rw [getLatestReviews, getLatest_aux]
cases h : lastMeaningful rs u <;> simp [optOr, jsMapGet]

/-- Keys after a JS `Map.set` are the written key plus the old keys. -/
theorem mem_keys_jsMapSet {β : Type} (m : List (String × β)) (k x : String) (v : β) :
x ∈ (jsMapSet m k v).map (fun p => p.1) ↔ x = k ∨ x ∈ m.map (fun p => p.1) := by
induction m with
| nil => simp [jsMapSet]
| cons p rest ih =>
  simp only [jsMapSet]
  by_cases h : p.1 = k
  · rw [if_pos h]
    simp [h]
  · rw [if_neg h]
    simp [ih]
    tauto

/-- A JS `Map.set` preserves distinctness of keys. -/
theorem jsMapSet_nodup {β : Type} (m : List (String × β)) (k : String) (v : β)
(h : (m.map (fun p => p.1)).Nodup) : ((jsMapSet m k v).map (fun p => p.1)).Nodup := by
induction m with
| nil => simp [jsMapSet]
| cons p rest ih =>
  simp only [List.map_cons, List.nodup_cons] at h
  simp only [jsMapSet]
  by_cases hk : p.1 = k
  · rw [if_pos hk]
    simp only [List.map_cons, List.nodup_cons]
    exact ⟨by rw [← hk]; exact h.1, h.2⟩
  · rw [if_neg hk]
    simp only [List.map_cons, List.nodup_cons]
    refine ⟨?_, ih h.2⟩
    rw [mem_keys_jsMapSet]
    rintro (h1 | h2)
    · exact hk h1
    · exact h.1 h2

/-- A latest-review fold step preserves distinctness of keys. -/
theorem latestStep_nodup (m : List (String × ReviewState)) (r : Review)
(h : (m.map (fun p => p.1)).Nodup) : ((latestStep m r).map (fun p => p.1)).Nodup := by
rw [latestStep]
by_cases hcm : (r.state = ReviewState.commented || r.state = ReviewState.dismissed) = true
· rw [if_pos hcm]
  exact h
· rw [if_neg hcm]
  exact jsMapSet_nodup m _ r.state h

/-- The latest-review map has one entry per reviewer. -/
theorem getLatestReviews_nodup (rs : List Review) :
((getLatestReviews rs).map (fun p => p.1)).Nodup := by
rw [getLatestReviews]
have haux : ∀ (l : List Review) (m : List (String × ReviewState)),
    (m.map (fun p => p.1)).Nodup → ((l.foldl latestStep m).map (fun p => p.1)).Nodup := by
  intro l
  induction l with
  | nil => intro m h; exact h
  | cons r rest ih =>
    intro m h
    rw [List.foldl_cons]
    exact ih _ (latestStep_nodup m r h)
exact haux rs [] (by simp)

/-- A key absent from an association list looks up to `none`. -/
theorem jsMapGet_eq_none_of_not_mem {β : Type} (m : List (String × β)) (u : String)
(h : u ∉ m.map (fun p => p.1)) : jsMapGet m u = none := by
induction m with
| nil => rfl
| cons p rest ih =>
  simp only [List.map_cons, List.mem_cons, not_or] at h
  rw [jsMapGet_cons, if_neg (fun hh => h.1 hh.symm)]
  exact ih h.2

/-- On a distinct-key association list, membership in the projected
filter by value is exactly a successful lookup of that value. -/
theorem mem_filter_map_fst_iff (m : List (String × ReviewState))
(hm : (m.map (fun p => p.1)).Nodup) (u : String) (s : ReviewState) :
u ∈ ((m.filter (fun p => p.2 = s)).map (fun p => p.1)) ↔ jsMapGet m u = some s := by
induction m with
| nil => simp [jsMapGet]
| cons p rest ih =>
  simp only [List.map_cons, List.nodup_cons] at hm
  rw [jsMapGet_cons]
  by_cases hps : p.2 = s
  · rw [List.filter_cons, if_pos (by simpa using hps)]
    simp only [List.map_cons, List.mem_cons]
    by_cases hpu : p.1 = u
    · simp [hpu, hps]
    · rw [if_neg hpu]
      constructor
      · rintro (h1 | h2)
        · exact absurd h1.symm hpu
        · exact (ih hm.2).mp h2
      · intro hlook
        exact Or.inr ((ih hm.2).mpr hlook)
  · rw [List.filter_cons, if_neg (by simpa using hps)]
    by_cases hpu : p.1 = u
    · rw [if_pos hpu]
      constructor
      · intro hmem
        have hl := (ih hm.2).mp hmem
        have hnone := jsMapGet_eq_none_of_not_mem rest u (by rw [← hpu]; exact hm.1)
        rw [hnone] at hl
        cases hl
      · intro hlook
        exfalso
        apply hps
        injection hlook
    · rw [if_neg hpu]
      exact ih hm.2

/-- C3: a reviewer whose chronologically last non-COMMENTED,
non-DISMISSED review is CHANGES_REQUESTED makes `approval_gate` fail
with the "Changes requested" result naming the blockers, for every
configuration of teams, users, members and mode; a reviewer whose last
meaningful review is APPROVED is never a blocker (an earlier
CHANGES_REQUESTED of the same, case-insensitively matched, reviewer
does not block); and the latest-state map ignores COMMENTED and
DISMISSED entirely. -/
theorem approvalGate_latest_review_precedence
(reviews : List Review) (requiredTeams requiredUsers : List String)
(teamMembers : List (String × List String)) (mode : ReqMode) (u : String) :
(∀ w, jsMapGet (getLatestReviews reviews) w = lastMeaningful reviews w)
∧ (lastMeaningful reviews u = some ReviewState.changes_requested →
    u ∈ (evaluateApprovals (getLatestReviews reviews) requiredTeams requiredUsers
          teamMembers mode).blockers
    ∧ approvalGateExecute reviews requiredTeams requiredUsers teamMembers mode
      = { conclusion := Conclusion.failure,
          title := "Changes requested",
          summary := "The following reviewer(s) have requested changes: "
            ++ String.intercalate ", "
              ((blockersOf (getLatestReviews reviews)).map (fun b => "@" ++ b))
            ++ ".\n\nResolve the requested changes and re-request approval." })
∧ (lastMeaningful reviews u = some ReviewState.approved →
    u ∉ (evaluateApprovals (getLatestReviews reviews) requiredTeams requiredUsers
          teamMembers mode).blockers) := by
have hnd := getLatestReviews_nodup reviews
refine ⟨fun w => getLatestReviews_lookup reviews w, ?_, ?_⟩
· intro hcr
  have hu : jsMapGet (getLatestReviews reviews) u
      = some ReviewState.changes_requested := by
    rw [getLatestReviews_lookup]
    exact hcr
  have hmem : u ∈ blockersOf (getLatestReviews reviews) :=
    (mem_filter_map_fst_iff (getLatestReviews reviews) hnd u
      ReviewState.changes_requested).mpr hu
  have hlen : (blockersOf (getLatestReviews reviews)).length > 0 :=
    List.length_pos_of_mem hmem
  constructor
  · simp only [evaluateApprovals]
    rw [if_pos hlen]
    exact hmem
  · simp only [approvalGateExecute, evaluateApprovals]
    rw [if_pos hlen]
    simp only [approvalGateResult]
    rw [if_pos hlen]
· intro hap humem
  have hbl : u ∈ blockersOf (getLatestReviews reviews) := by
    by_cases hlen : (blockersOf (getLatestReviews reviews)).length > 0
    · simp only [evaluateApprovals] at humem
      rw [if_pos hlen] at humem
      exact humem
    · simp only [evaluateApprovals] at humem
      rw [if_neg hlen] at humem
      simp at humem
  have hlook := (mem_filter_map_fst_iff (getLatestReviews reviews) hnd u
    ReviewState.changes_requested).mp hbl
  rw [getLatestReviews_lookup, hap] at hlook
  cases hlook

/-- C3 witness: reviewer `Alice` approves, then (as `alice`) requests
changes, then comments; `bob` approves and is the sole configured
required user — the gate still fails with "Changes requested" because
Alice's latest meaningful state blocks; conversely `Carol`'s early
CHANGES_REQUESTED followed by her APPROVED leaves no blocker. -/
theorem approvalGate_latest_review_precedence_witness :
"alice" ∈ (evaluateApprovals
    (getLatestReviews [⟨"Alice", ReviewState.approved⟩,
      ⟨"alice", ReviewState.changes_requested⟩,
      ⟨"bob", ReviewState.approved⟩,
      ⟨"alice", ReviewState.commented⟩])
    [] ["bob"] [] ReqMode.all).blockers
∧ (approvalGateExecute [⟨"Alice", ReviewState.approved⟩,
      ⟨"alice", ReviewState.changes_requested⟩,
      ⟨"bob", ReviewState.approved⟩,
      ⟨"alice", ReviewState.commented⟩]
    [] ["bob"] [] ReqMode.all).conclusion = Conclusion.failure
∧ "carol" ∉ (evaluateApprovals
    (getLatestReviews [⟨"Carol", ReviewState.changes_requested⟩,
      ⟨"carol", ReviewState.approved⟩])
    [] ["carol"] [] ReqMode.all).blockers := by
have h1 := (approvalGate_latest_review_precedence
  [⟨"Alice", ReviewState.approved⟩, ⟨"alice", ReviewState.changes_requested⟩,
    ⟨"bob", ReviewState.approved⟩, ⟨"alice", ReviewState.commented⟩]
  [] ["bob"] [] ReqMode.all "alice").2.1 (by decide)
refine ⟨h1.1, ?_, ?_⟩
· rw [h1.2]
· exact (approvalGate_latest_review_precedence
    [⟨"Carol", ReviewState.changes_requested⟩, ⟨"carol", ReviewState.approved⟩]
    [] ["carol"] [] ReqMode.all "carol").2.2 (by decide)

/-- C7 (spec-modelled side effect): the reviewer auto-request issues
requests exactly for the users and teams whose requirement is unmet
(under the code's satisfaction test against the approvers of the
latest reviews); every requested target's label appears in the unmet
requirements computed by `evaluateApprovals`; no request is issued for
a satisfied requirement, when the option is disabled, or when the
failure cause is a changes-requested review. -/
theorem approvalGate_autoRequest
(enabled : Bool) (reviews : List Review) (requiredTeams requiredUsers : List String)
(teamMembers : List (String × List String)) (mode : ReqMode) :
(enabled = false →
  autoRequestTargets enabled (getLatestReviews reviews) requiredTeams requiredUsers
    teamMembers mode = ⟨[], []⟩)
∧ ((evaluateApprovals (getLatestReviews reviews) requiredTeams requiredUsers
      teamMembers mode).blockers ≠ [] →
  autoRequestTargets enabled (getLatestReviews reviews) requiredTeams requiredUsers
    teamMembers mode = ⟨[], []⟩)
∧ (enabled = true →
   (evaluateApprovals (getLatestReviews reviews) requiredTeams requiredUsers
      teamMembers mode).passed = false →
   (evaluateApprovals (getLatestReviews reviews) requiredTeams requiredUsers
      teamMembers mode).blockers = [] →
   (∀ t, t ∈ (autoRequestTargets enabled (getLatestReviews reviews) requiredTeams
        requiredUsers teamMembers mode).teams
      ↔ t ∈ requiredTeams
        ∧ teamSatisfied teamMembers (approversOf (getLatestReviews reviews)) t = false)
   ∧ (∀ v, v ∈ (autoRequestTargets enabled (getLatestReviews reviews) requiredTeams
        requiredUsers teamMembers mode).users
      ↔ v ∈ requiredUsers
        ∧ userSatisfied (approversOf (getLatestReviews reviews)) v = false)
   ∧ (∀ t ∈ (autoRequestTargets enabled (getLatestReviews reviews) requiredTeams
        requiredUsers teamMembers mode).teams,
      ("@" ++ t) ∈ (evaluateApprovals (getLatestReviews reviews) requiredTeams
        requiredUsers teamMembers mode).missingRequirements)
   ∧ (∀ v ∈ (autoRequestTargets enabled (getLatestReviews reviews) requiredTeams
        requiredUsers teamMembers mode).users,
      ("@" ++ v) ∈ (evaluateApprovals (getLatestReviews reviews) requiredTeams
        requiredUsers teamMembers mode).missingRequirements)) := by
refine ⟨?_, ?_, ?_⟩
· intro hoff
  subst hoff
  simp [autoRequestTargets]
· intro hbl
  rw [autoRequestTargets]
  rw [if_neg ?_]
  intro hcond
  simp only [Bool.and_eq_true, List.isEmpty_iff] at hcond
  exact hbl hcond.2
· intro hon hnp hbl
  subst hon
  have hcond : (true && !(evaluateApprovals (getLatestReviews reviews) requiredTeams
      requiredUsers teamMembers mode).passed
    && (evaluateApprovals (getLatestReviews reviews) requiredTeams requiredUsers
      teamMembers mode).blockers.isEmpty) = true := by
    rw [hnp, hbl]
    rfl
  have hreq : autoRequestTargets true (getLatestReviews reviews) requiredTeams
      requiredUsers teamMembers mode
    = { users := requiredUsers.filter (fun u => !(userSatisfied
          (approversOf (getLatestReviews reviews)) u)),
        teams := requiredTeams.filter (fun t => !(teamSatisfied teamMembers
          (approversOf (getLatestReviews reviews)) t)) } := by
    rw [autoRequestTargets, if_pos hcond]
  have hlen : ¬ (blockersOf (getLatestReviews reviews)).length > 0 := by
    intro hpos
    have : (evaluateApprovals (getLatestReviews reviews) requiredTeams requiredUsers
        teamMembers mode).blockers = blockersOf (getLatestReviews reviews) := by
      simp only [evaluateApprovals]
      rw [if_pos hpos]
    rw [this] at hbl
    rw [hbl] at hpos
    simp at hpos
  have hmissing : (evaluateApprovals (getLatestReviews reviews) requiredTeams
      requiredUsers teamMembers mode).missingRequirements
    = ((requirementsOf requiredTeams requiredUsers teamMembers).filter
        (fun req => !(req.2.any (fun v =>
          (approversOf (getLatestReviews reviews)).contains v)))).map
        (fun req => req.1) := by
    simp only [evaluateApprovals]
    rw [if_neg hlen]
  refine ⟨?_, ?_, ?_, ?_⟩
  · intro t
    rw [hreq]
    simp [List.mem_filter]
  · intro v
    rw [hreq]
    simp [List.mem_filter]
  · intro t ht
    rw [hreq] at ht
    simp only [List.mem_filter, Bool.not_eq_true'] at ht
    rw [hmissing]
    refine List.mem_map.mpr ⟨("@" ++ t, (jsMapGet teamMembers t).getD []), ?_, rfl⟩
    rw [List.mem_filter]
    constructor
    · rw [requirementsOf]
      exact List.mem_append_left _ (List.mem_map.mpr ⟨t, ht.1, rfl⟩)
    · simpa [teamSatisfied] using ht.2
  · intro v hv
    rw [hreq] at hv
    simp only [List.mem_filter, Bool.not_eq_true'] at hv
    rw [hmissing]
    refine List.mem_map.mpr ⟨("@" ++ v, [strToLower v]), ?_, rfl⟩
    rw [List.mem_filter]
    constructor
    · rw [requirementsOf]
      exact List.mem_append_right _ (List.mem_map.mpr ⟨v, hv.1, rfl⟩)
    · simpa [userSatisfied] using hv.2

/-- C7 witness: with the option enabled, required users `dev` and
`lead` and only `lead` approving in mode `all`, exactly `dev` is
requested and `@dev` is the unmet requirement; with a changes-requested
blocker present, nothing is requested. -/
theorem approvalGate_autoRequest_witness :
(autoRequestTargets true
    (getLatestReviews [⟨"lead", ReviewState.approved⟩]) [] ["dev", "lead"]
    [] ReqMode.all).users = ["dev"]
∧ ("@dev" ∈ (evaluateApprovals
    (getLatestReviews [⟨"lead", ReviewState.approved⟩]) [] ["dev", "lead"]
    [] ReqMode.all).missingRequirements)
∧ autoRequestTargets true
    (getLatestReviews [⟨"lead", ReviewState.changes_requested⟩]) [] ["dev", "lead"]
    [] ReqMode.all = ⟨[], []⟩ := by
have h := (approvalGate_autoRequest true [⟨"lead", ReviewState.approved⟩]
  [] ["dev", "lead"] [] ReqMode.all).2.2 rfl (by decide) (by decide)
refine ⟨?_, ?_, ?_⟩
· decide
· exact h.2.2.2 "dev" ((h.2.1 "dev").mpr (by decide))
· exact (approvalGate_autoRequest true [⟨"lead", ReviewState.changes_requested⟩]
    [] ["dev", "lead"] [] ReqMode.all).2.1 (by decide)

/-- The substring test is exactly list-infix occurrence. -/
theorem containsSub_occurs_iff (pat : List Char) (l : List Char) :
containsSub pat l = true ↔ pat <:+: l := by
induction l with
| nil =>
  simp [containsSub, List.isEmpty_iff]
| cons c rest ih =>
  simp [containsSub, List.isPrefixOf_iff_prefix, ih, List.infix_cons_iff]

/-- C10: the success update never creates a comment; with no
marker-carrying comment on the pull request it performs no outbound
mutation at all; and when the marker comment already contains the
success body, no update request is issued. -/
theorem updateCommentToSuccess_frame (comments : List BotComment) :
(∀ b, CommentAction.create b ∉ updateCommentToSuccess comments)
∧ (findBotComment comments = none → updateCommentToSuccess comments = [])
∧ (∀ c, findBotComment comments = some c →
    strIncludes c.body buildSuccessBody = true →
    updateCommentToSuccess comments = []) := by
refine ⟨?_, ?_, ?_⟩
· intro b hmem
  cases hfind : findBotComment comments with
  | none =>
    simp only [updateCommentToSuccess, hfind] at hmem
    cases hmem
  | some existing =>
    simp only [updateCommentToSuccess, hfind] at hmem
    by_cases hinc : strIncludes existing.body "All checks passed" = true
    · rw [if_pos hinc] at hmem
      cases hmem
    · rw [if_neg hinc] at hmem
      simp at hmem
· intro hfind
  simp only [updateCommentToSuccess, hfind]
· intro c hfind hincl
  have hmid : containsSub "All checks passed".data buildSuccessBody.data = true := by
    decide
  have hinf : ("All checks passed".data : List Char) <:+: c.body.data :=
    List.IsInfix.trans ((containsSub_occurs_iff _ _).mp hmid)
      ((containsSub_occurs_iff _ _).mp hincl)
  have hinc : strIncludes c.body "All checks passed" = true := by
    rw [strIncludes, containsSub_occurs_iff]
    exact hinf
  simp only [updateCommentToSuccess, hfind]
  rw [if_pos hinc]

/-- C10 witness: with no marker comment the update does nothing, and
with a comment already carrying the full success body nothing is
mutated. -/
theorem updateCommentToSuccess_frame_witness :
updateCommentToSuccess [⟨5, "unrelated comment"⟩] = []
∧ updateCommentToSuccess [⟨5, "unrelated comment"⟩, ⟨7, buildSuccessBody⟩] = [] := by
constructor
· exact (updateCommentToSuccess_frame [⟨5, "unrelated comment"⟩]).2.1 (by decide)
· exact (updateCommentToSuccess_frame
    [⟨5, "unrelated comment"⟩, ⟨7, buildSuccessBody⟩]).2.2
    ⟨7, buildSuccessBody⟩ (by decide) (by decide)

/-- Without a title override, the failure-message step leaves the
title unchanged. -/
theorem applyFailureMessage_title_of_none (fm : Option FailureMessage)
(r : CheckResult) (h : ∀ m, fm = some m → m.title = none) :
(applyFailureMessage fm r).title = r.title := by
cases fm with
| none => rfl
| some m =>
  have hm := h m rfl
  by_cases hc : r.conclusion = Conclusion.failure
  · simp [applyFailureMessage, hc, hm]
  · simp [applyFailureMessage, hc]

/-- Every waiting title produced by the external-status check signals
the unresolved wait. -/
theorem strStartsWith_waiting (s : String) :
strStartsWith ("Waiting for: " ++ s) "Waiting for:" = true := by
rw [strStartsWith, List.isPrefixOf_iff_prefix, String.data_append]
have h1 : ("Waiting for:".data : List Char) <+: "Waiting for: ".data := by
  rw [← List.isPrefixOf_iff_prefix]
  decide
exact h1.trans (List.prefix_append _ _)

/-- C1 (amended): when an `external_status` evaluation finds no failed
required check but some required check pending or missing, and the
rule's failure_message does not replace the title, the orchestrator
does not complete the remote record: it stores a PendingEvaluation
keyed by (owner, repo, head SHA, rule name) with the evaluation's
creation time and timeout, and issues exactly one check-run update
that keeps status in_progress, sets no conclusion, and carries the
waiting output. -/
theorem evaluateExternal_pending_keeps_in_progress
(owner repo headSha ruleName : String) (fm : Option FailureMessage)
(requiredChecks : List String) (timeoutMinutes : Nat) (allRuns : List RemoteRun)
(checkRunId now : Nat) (store : PendingStore)
(hnofail : (getRequiredCheckStatuses allRuns requiredChecks).any isFailedStatus = false)
(hnotall : (getRequiredCheckStatuses allRuns requiredChecks).all
  (fun s => s.status = ExtStatus.completed) = false)
(htitle : ∀ m, fm = some m → m.title = none) :
getPendingEvaluation
  (evaluateExternalRule owner repo headSha ruleName fm requiredChecks
    timeoutMinutes allRuns checkRunId now store).1
  (getPendingKey owner repo headSha ruleName)
  = some ⟨owner, repo, headSha, ruleName, requiredChecks, checkRunId, now, timeoutMinutes⟩
∧ (evaluateExternalRule owner repo headSha ruleName fm requiredChecks
    timeoutMinutes allRuns checkRunId now store).2
  = [{ checkRunId := checkRunId, status := some RunStatus.in_progress,
       conclusion := none,
       output := some
         ⟨(applyFailureMessage fm (externalWaitingResult
            (((getRequiredCheckStatuses allRuns requiredChecks).filter
              (fun s => s.status = ExtStatus.pending || s.status = ExtStatus.missing)).map
              (fun s => s.name)) timeoutMinutes)).title,
          (applyFailureMessage fm (externalWaitingResult
            (((getRequiredCheckStatuses allRuns requiredChecks).filter
              (fun s => s.status = ExtStatus.pending || s.status = ExtStatus.missing)).map
              (fun s => s.name)) timeoutMinutes)).summary,
          (applyFailureMessage fm (externalWaitingResult
            (((getRequiredCheckStatuses allRuns requiredChecks).filter
              (fun s => s.status = ExtStatus.pending || s.status = ExtStatus.missing)).map
              (fun s => s.name)) timeoutMinutes)).details⟩ }]
∧ (applyFailureMessage fm (externalWaitingResult
    (((getRequiredCheckStatuses allRuns requiredChecks).filter
      (fun s => s.status = ExtStatus.pending || s.status = ExtStatus.missing)).map
      (fun s => s.name)) timeoutMinutes)).title
  = "Waiting for: " ++ String.intercalate ", "
      (((getRequiredCheckStatuses allRuns requiredChecks).filter
        (fun s => s.status = ExtStatus.pending || s.status = ExtStatus.missing)).map
        (fun s => s.name)) := by
have hstep : externalStatusExecute owner repo headSha ruleName requiredChecks
    timeoutMinutes allRuns store
  = (externalWaitingResult
      (((getRequiredCheckStatuses allRuns requiredChecks).filter
        (fun s => s.status = ExtStatus.pending || s.status = ExtStatus.missing)).map
        (fun s => s.name)) timeoutMinutes, store) := by
  simp only [externalStatusExecute]
  rw [hnotall, hnofail]
  rfl
have htl : (applyFailureMessage fm (externalWaitingResult
    (((getRequiredCheckStatuses allRuns requiredChecks).filter
      (fun s => s.status = ExtStatus.pending || s.status = ExtStatus.missing)).map
      (fun s => s.name)) timeoutMinutes)).title
  = "Waiting for: " ++ String.intercalate ", "
      (((getRequiredCheckStatuses allRuns requiredChecks).filter
        (fun s => s.status = ExtStatus.pending || s.status = ExtStatus.missing)).map
        (fun s => s.name)) :=
  applyFailureMessage_title_of_none fm _ htitle
have hsw : strStartsWith (applyFailureMessage fm (externalWaitingResult
    (((getRequiredCheckStatuses allRuns requiredChecks).filter
      (fun s => s.status = ExtStatus.pending || s.status = ExtStatus.missing)).map
      (fun s => s.name)) timeoutMinutes)).title "Waiting for:" = true := by
  rw [htl]
  exact strStartsWith_waiting _
have hfin : evaluateExternalRule owner repo headSha ruleName fm requiredChecks
    timeoutMinutes allRuns checkRunId now store
  = (setPendingEvaluation store (getPendingKey owner repo headSha ruleName)
      { owner := owner, repo := repo, headSha := headSha, ruleName := ruleName,
        requiredChecks := requiredChecks, checkRunId := checkRunId,
        createdAt := now, timeoutMinutes := timeoutMinutes },
     [{ checkRunId := checkRunId, status := some RunStatus.in_progress,
        conclusion := none,
        output := some
          ⟨(applyFailureMessage fm (externalWaitingResult
             (((getRequiredCheckStatuses allRuns requiredChecks).filter
               (fun s => s.status = ExtStatus.pending || s.status = ExtStatus.missing)).map
               (fun s => s.name)) timeoutMinutes)).title,
           (applyFailureMessage fm (externalWaitingResult
             (((getRequiredCheckStatuses allRuns requiredChecks).filter
               (fun s => s.status = ExtStatus.pending || s.status = ExtStatus.missing)).map
               (fun s => s.name)) timeoutMinutes)).summary,
           (applyFailureMessage fm (externalWaitingResult
             (((getRequiredCheckStatuses allRuns requiredChecks).filter
               (fun s => s.status = ExtStatus.pending || s.status = ExtStatus.missing)).map
               (fun s => s.name)) timeoutMinutes)).details⟩ }]) := by
  rw [evaluateExternalRule]
  rw [hstep]
  simp only [finalizeRuleCheck]
  rw [if_pos hsw]
refine ⟨?_, ?_, htl⟩
· rw [hfin]
  rw [getPendingEvaluation, setPendingEvaluation, jsMapGet_set]
  rw [if_pos rfl]
· rw [hfin]

/-- C1 counterexample to the claim as stated: with a failure_message
title override configured, an `external_status` evaluation whose
required check is still pending is finalized — the orchestrator
completes the remote record with conclusion failure and stores no
PendingEvaluation — because the override is applied before the
waiting-title test. -/
theorem evaluateExternal_override_counterexample :
(evaluateExternalRule "o" "r" "sha1" "gate" (some ⟨some "Custom failure", none⟩)
  ["lint"] 30 [⟨"lint", "queued", none⟩] 42 1000 []).1 = []
∧ ((evaluateExternalRule "o" "r" "sha1" "gate" (some ⟨some "Custom failure", none⟩)
    ["lint"] 30 [⟨"lint", "queued", none⟩] 42 1000 []).2.map
    (fun p => p.status)) = [some RunStatus.completed]
∧ ((evaluateExternalRule "o" "r" "sha1" "gate" (some ⟨some "Custom failure", none⟩)
    ["lint"] 30 [⟨"lint", "queued", none⟩] 42 1000 []).2.map
    (fun p => p.conclusion)) = [some Conclusion.failure]
∧ (getRequiredCheckStatuses [⟨"lint", "queued", none⟩] ["lint"]).map
    (fun s => s.status) = [ExtStatus.pending]
∧ (getRequiredCheckStatuses [⟨"lint", "queued", none⟩] ["lint"]).any
    isFailedStatus = false := by
decide

/-- C1 witness: the amended theorem applied to the spec scenario —
required checks `lint` and `typecheck` with `lint` succeeded and
`typecheck` in progress, no failure_message — stores the pending
record and issues the in-progress "Waiting for: typecheck" update. -/
theorem evaluateExternal_pending_keeps_in_progress_witness :
getPendingEvaluation
  (evaluateExternalRule "o" "r" "sha1" "lint-check" none ["lint", "typecheck"] 30
    [⟨"lint", "completed", some "success"⟩, ⟨"typecheck", "in_progress", none⟩]
    42 1000 []).1
  (getPendingKey "o" "r" "sha1" "lint-check")
  = some ⟨"o", "r", "sha1", "lint-check", ["lint", "typecheck"], 42, 1000, 30⟩
∧ (applyFailureMessage none (externalWaitingResult
    (((getRequiredCheckStatuses
      [⟨"lint", "completed", some "success"⟩, ⟨"typecheck", "in_progress", none⟩]
      ["lint", "typecheck"]).filter
      (fun s => s.status = ExtStatus.pending || s.status = ExtStatus.missing)).map
      (fun s => s.name)) 30)).title
  = "Waiting for: typecheck" := by
have h := evaluateExternal_pending_keeps_in_progress "o" "r" "sha1" "lint-check"
  none ["lint", "typecheck"] 30
  [⟨"lint", "completed", some "success"⟩, ⟨"typecheck", "in_progress", none⟩]
  42 1000 [] (by decide) (by decide) (by intro m hm; cases hm)
refine ⟨h.1, ?_⟩
rw [h.2.2]
rfl

end BranchGuard
